import Mathlib

set_option maxHeartbeats 1000000

/-!
Formal model of `server/webhook.go`: the webhook-driven reconciliation pipeline
that turns VCS push events into database schema-change work items.

Modelling conventions:
* Go strings are modelled as lists of characters (`GoStr`); Go byte slices as
  `List Nat` (each entry a byte value); Go machine integers as `Nat`/`Int`.
* External collaborators (the store, VCS content fetch, task patching, the SQL
  parser/differ, `time.Parse`) are modelled as explicit oracle arguments of the
  functions that call them; everything else is translated from the source.
* Fallible Go functions returning `(T, error)` are modelled with `Except`.
-/

/-- A Go string, seen as its list of characters. -/
abbrev GoStr := List Char

/-- Models `strings.HasPrefix(s, pre)` from the Go standard library
(used at `webhook.go:337` and `webhook.go:724`). -/
def hasPfx : GoStr → GoStr → Bool
  | _, [] => true
  | [], _ :: _ => false
  | c :: s, d :: p => c == d && hasPfx s p

/-- Models `strings.TrimPrefix(s, pre)`: drops `pre` when it is a prefix of
`s`, otherwise returns `s` unchanged (used at `webhook.go:319`). -/
def trimPfx (s pre : GoStr) : GoStr :=
  if hasPfx s pre then s.drop pre.length else s

/-- `fileItemType` (webhook.go:345): the type of a file item. -/
inductive FileItemType where
  | added
  | modified
deriving DecidableEq

/-- `gitlab.WebhookCommit`: the raw, provider-supplied commit record of a
GitLab push payload. The timestamp is the raw ISO-8601 string exactly as in
the payload; `dedupMigrationFilesFromCommitList` parses it. -/
structure WebhookCommit where
  id : GoStr
  title : GoStr
  message : GoStr
  timestamp : GoStr
  url : GoStr
  authorName : GoStr
  authorEmail : GoStr
  addedList : List GoStr
  modifiedList : List GoStr
deriving DecidableEq

/-- `distinctFileItem` (webhook.go:379): the deduplicated unit of work, one
per distinct file path of a push. -/
structure DistinctFileItem where
  createdTime : Int
  commit : WebhookCommit
  fileName : GoStr
  itemType : FileItemType
deriving DecidableEq

/-- Unix seconds of Go's zero `time.Time` (0001-01-01T00:00:00Z): the value a
failed `time.Parse` leaves in `createdTime` at `webhook.go:395-398` (the
parse failure is logged and processing continues with the zero time). -/
def goZeroTime : Int := -62135596800

/-- The `addDistinctFile` closure of `dedupMigrationFilesFromCommitList`
(webhook.go:400-417): scan the accumulated list for an entry with the same
file name; at the first hit, keep the entry from the later commit (strictly
later parsed creation time) in the same position and stop; if no entry has
this name, append at the end. -/
def addDistinctFile (item : DistinctFileItem) : List DistinctFileItem → List DistinctFileItem
  | [] => [item]
  | file :: rest =>
    if item.fileName = file.fileName then
      (if file.createdTime < item.createdTime then item else file) :: rest
    else
      file :: addDistinctFile item rest

/-- One commit's contribution to the dedup list: upsert each file of `files`
(in order) with the given parsed creation time and item type
(webhook.go:419-424 runs this first over `AddedList`, then `ModifiedList`). -/
def processCommitFiles (createdTime : Int) (commit : WebhookCommit)
    (itemType : FileItemType) (files : List GoStr)
    (acc : List DistinctFileItem) : List DistinctFileItem :=
  files.foldl (fun a f => addDistinctFile ⟨createdTime, commit, f, itemType⟩ a) acc

/-- `dedupMigrationFilesFromCommitList` (webhook.go:386-427). `parseTs` models
`time.Parse(time.RFC3339, commit.Timestamp)`; on parse failure the Go code
logs and proceeds with the zero time, modelled by `Option.getD goZeroTime`. -/
def dedupMigrationFilesFromCommitList (parseTs : GoStr → Option Int)
    (commitList : List WebhookCommit) : List DistinctFileItem :=
  commitList.foldl (fun acc commit =>
    let createdTime := (parseTs commit.timestamp).getD goZeroTime
    processCommitFiles createdTime commit .modified commit.modifiedList
      (processCommitFiles createdTime commit .added commit.addedList acc)) []

/-- Spec-side definition (for claim C2): insert a path at the end of the list
unless it already occurs. -/
def insertFirstOccurrence (acc : List GoStr) (f : GoStr) : List GoStr :=
  if f ∈ acc then acc else acc ++ [f]

/-- Spec-side definition (for claim C2), from the spec's words: "output order
equals first-occurrence order of paths in the input", with added paths before
modified paths within a commit. -/
def firstOccurrencePaths (commitList : List WebhookCommit) : List GoStr :=
  commitList.foldl
    (fun acc commit => (commit.addedList ++ commit.modifiedList).foldl insertFirstOccurrence acc) []

/-- Concrete commit for the C3 example: adds file `F` at parsed time 1. -/
def c3Commit1 : WebhookCommit :=
  ⟨("c1".data), ("t1".data), ("m1".data), ("1".data), ("u1".data), ("an1".data), ("ae1".data),
    [("F".data)], []⟩

/-- Concrete commit for the C3 example: modifies file `F` at parsed time 2. -/
def c3Commit2 : WebhookCommit :=
  ⟨("c2".data), ("t2".data), ("m2".data), ("2".data), ("u2".data), ("an2".data), ("ae2".data),
    [], [("F".data)]⟩

/-- Concrete timestamp parser for the C3 example. -/
def c3Parse : GoStr → Option Int :=
  fun ts => if ts = ("1".data) then some 1 else if ts = ("2".data) then some 2 else none

/-- Truncate to an unsigned 32-bit word (Go `uint32` wrap-around). -/
def w32 (n : Nat) : Nat := n % 4294967296

/-- 32-bit rotate right, on words below `2^32`. -/
def rotr32 (x n : Nat) : Nat := w32 ((x >>> n) ||| (x <<< (32 - n)))

/-- The SHA-256 round constants (FIPS 180-4), as used by `crypto/sha256`. -/
def sha256K : List Nat :=
  [1116352408, 1899447441, 3049323471, 3921009573,
   961987163, 1508970993, 2453635748, 2870763221,
   3624381080, 310598401, 607225278, 1426881987,
   1925078388, 2162078206, 2614888103, 3248222580,
   3835390401, 4022224774, 264347078, 604807628,
   770255983, 1249150122, 1555081692, 1996064986,
   2554220882, 2821834349, 2952996808, 3210313671,
   3336571891, 3584528711, 113926993, 338241895,
   666307205, 773529912, 1294757372, 1396182291,
   1695183700, 1986661051, 2177026350, 2456956037,
   2730485921, 2820302411, 3259730800, 3345764771,
   3516065817, 3600352804, 4094571909, 275423344,
   430227734, 506948616, 659060556, 883997877,
   958139571, 1322822218, 1537002063, 1747873779,
   1955562222, 2024104815, 2227730452, 2361852424,
   2428436474, 2756734187, 3204031479, 3329325298]

/-- The SHA-256 initial hash state (FIPS 180-4). -/
def sha256InitH : List Nat :=
  [1779033703, 3144134277, 1013904242, 2773480762,
   1359893119, 2600822924, 528734635, 1541459225]

/-- Big-endian 32-bit word from four bytes. -/
def beWord (a b c d : Nat) : Nat := ((a * 256 + b) * 256 + c) * 256 + d

/-- The sixteen big-endian words of a 64-byte block. -/
def blockWords : List Nat → List Nat
  | a :: b :: c :: d :: rest => beWord a b c d :: blockWords rest
  | _ => []

/-- Extend sixteen schedule words to sixty-four (SHA-256 message schedule). -/
def extendWords (w : List Nat) : List Nat :=
  (List.range 48).foldl (fun w i =>
    let j := i + 16
    let w15 := w.getD (j - 15) 0
    let w2 := w.getD (j - 2) 0
    let s0 := (rotr32 w15 7) ^^^ (rotr32 w15 18) ^^^ (w15 >>> 3)
    let s1 := (rotr32 w2 17) ^^^ (rotr32 w2 19) ^^^ (w2 >>> 10)
    w ++ [w32 (w.getD (j - 16) 0 + s0 + w.getD (j - 7) 0 + s1)]) w

/-- One SHA-256 compression round on the eight-word working state. -/
def sha256Round (st : List Nat) (kw : Nat × Nat) : List Nat :=
  match st with
  | [a, b, c, d, e, f, g, h] =>
    let s1 := (rotr32 e 6) ^^^ (rotr32 e 11) ^^^ (rotr32 e 25)
    let ch := (e &&& f) ^^^ ((e ^^^ 4294967295) &&& g)
    let temp1 := w32 (h + s1 + ch + kw.1 + kw.2)
    let s0 := (rotr32 a 2) ^^^ (rotr32 a 13) ^^^ (rotr32 a 22)
    let maj := (a &&& b) ^^^ (a &&& c) ^^^ (b &&& c)
    let temp2 := w32 (s0 + maj)
    [w32 (temp1 + temp2), a, b, c, w32 (d + temp1), e, f, g]
  | _ => st

/-- SHA-256 compression of one 64-byte block into the hash state. -/
def sha256Compress (h : List Nat) (block : List Nat) : List Nat :=
  let w := extendWords (blockWords block)
  let st := (List.zip sha256K w).foldl sha256Round h
  List.zipWith (fun x y => w32 (x + y)) h st

/-- Big-endian 8-byte encoding of a (64-bit) length. -/
def beBytes8 (n : Nat) : List Nat :=
  [n / 72057594037927936 % 256, n / 281474976710656 % 256, n / 1099511627776 % 256,
   n / 4294967296 % 256, n / 16777216 % 256, n / 65536 % 256, n / 256 % 256, n % 256]

/-- SHA-256 padding: `0x80`, zeros to 56 mod 64, then the bit length. -/
def sha256Pad (msg : List Nat) : List Nat :=
  let l := msg.length
  msg ++ 128 :: List.replicate ((55 + 64 - l % 64) % 64) 0 ++ beBytes8 (8 * l)

/-- Split a byte list into 64-byte chunks (fuel-driven; fuel ≥ length). -/
def chunksOf64 : Nat → List Nat → List (List Nat)
  | 0, _ => []
  | _, [] => []
  | fuel + 1, l => l.take 64 :: chunksOf64 fuel (l.drop 64)

/-- SHA-256 of a byte list, producing the 32 digest bytes
(models `crypto/sha256` as used by `crypto/hmac` at webhook.go:320). -/
def sha256 (msg : List Nat) : List Nat :=
  let padded := sha256Pad msg
  let hh := (chunksOf64 padded.length padded).foldl sha256Compress sha256InitH
  hh.flatMap (fun x => [x / 16777216 % 256, x / 65536 % 256, x / 256 % 256, x % 256])

/-- HMAC-SHA256 (models `hmac.New(sha256.New, key)` followed by `Write`/`Sum`
at webhook.go:320-324): keys longer than the 64-byte block are hashed first,
then padded with zeros; inner pad `0x36`, outer pad `0x5c`. -/
def hmacSha256 (key msg : List Nat) : List Nat :=
  let key := if 64 < key.length then sha256 key else key
  let key := key ++ List.replicate (64 - key.length) 0
  sha256 ((key.map (fun b => b ^^^ 92)) ++ sha256 ((key.map (fun b => b ^^^ 54)) ++ msg))

/-- The lowercase alphabet of Go's `hex.EncodeToString`. -/
def hexTableChars : GoStr := "0123456789abcdef".data

/-- One lowercase hex digit (high nibble first is handled by the caller). -/
def hexDigitChar (n : Nat) : Char := hexTableChars.getD n '0'

/-- Models `hex.EncodeToString`: two lowercase hex digits per byte, high
nibble first (webhook.go:324). -/
def hexEncodeToString (bs : List Nat) : GoStr :=
  bs.flatMap (fun b => [hexDigitChar (b >>> 4), hexDigitChar (b &&& 15)])

/-- The byte view of a Go string (exact for the ASCII strings involved). -/
def strBytes (s : GoStr) : List Nat := s.map Char.toNat

/-- Models `subtle.ConstantTimeCompare`: `1` when the byte slices have equal
length and contents, else `0` (webhook.go:329). -/
def constantTimeCompare (x y : List Nat) : Nat :=
  if x.length = y.length then
    if (List.zipWith (fun a b => a ^^^ b) x y).foldl (fun v z => v ||| z) 0 = 0 then 1 else 0
  else 0

/-- The `"sha256="` header value marker stripped at webhook.go:319. -/
def sha256Pfx : GoStr := "sha256=".data

/-- `validateGitHubWebhookSignature256` (webhook.go:318-330): strip the
`sha256=` marker, HMAC-SHA256 the raw body under the stored key, hex-encode,
and constant-time compare. The `m.Write` error branch of the source is
unreachable (a `hash.Hash` write never returns an error per its contract), so
the error component is always `none`. -/
def validateGitHubWebhookSignature256 (signature key : GoStr) (body : List Nat) :
    Bool × Option GoStr :=
  let signature := trimPfx signature sha256Pfx
  let got := hexEncodeToString (hmacSha256 (strBytes key) body)
  (constantTimeCompare (strBytes signature) (strBytes got) == 1, none)

/-- ASCII lowering of one character (the fold relevant to the environment
names compared by `strings.EqualFold` at webhook.go:471; the full Unicode
simple fold coincides with this on ASCII). -/
def toLowerGo (c : Char) : Char :=
  if 'A' ≤ c ∧ c ≤ 'Z' then Char.ofNat (c.toNat + 32) else c

/-- Models `strings.EqualFold` (case-insensitive equality). -/
def equalFold (a b : GoStr) : Bool := a.map toLowerGo == b.map toLowerGo

/-- The slice of an `api.Database` row that `findProjectDatabases` reads:
its id, its instance's environment id, and that environment's name. -/
structure ProjDatabase where
  id : Nat
  environmentID : Nat
  environmentName : GoStr
deriving DecidableEq

/-- The `marked` scan of webhook.go:483-489: true iff two databases in the
list share an environment id. -/
def hasDupEnvironmentID : List ProjDatabase → List Nat → Bool
  | [], _ => false
  | d :: rest, marked =>
    if d.environmentID ∈ marked then true
    else hasDupEnvironmentID rest (d.environmentID :: marked)

/-- `findProjectDatabases` (webhook.go:432-491). `foundDatabases` is the
result of the store query `FindDatabase{ProjectID, Name}` (an external
collaborator); the store-error branch aborts before this logic and is not
part of the claim. Project id and database name only feed error messages and
are elided from them. -/
def findProjectDatabases (tenantMode : Bool) (envName : GoStr)
    (foundDatabases : List ProjDatabase) : Except GoStr (List ProjDatabase) :=
  if foundDatabases.length = 0 then
    .error ("project does not have database".data)
  else if tenantMode then
    if envName ≠ [] then
      .error ("non-empty environment is not allowed for tenant mode project".data)
    else
      .ok foundDatabases
  else
    let filteredDatabases :=
      if envName ≠ [] then foundDatabases.filter (fun d => equalFold d.environmentName envName)
      else foundDatabases
    if envName ≠ [] ∧ filteredDatabases.length = 0 then
      .error ("project does not have database for environment".data)
    else if hasDupEnvironmentID filteredDatabases [] then
      .error ("project has multiple databases for environment".data)
    else
      .ok filteredDatabases

/-- The fields of `api.MigrationDetail` set by this file (webhook.go:572-598,
637-661): target database (by id or by raw name), statement text, and the
optional schema version tag. -/
structure MigrationDetail where
  databaseID : Nat := 0
  databaseName : GoStr := []
  statement : GoStr := []
  schemaVersion : GoStr := []
deriving DecidableEq

/-- The observable payload of an `api.ActivityCreate` produced here: its
comment string (creator, container, type and level are fixed by
`getIgnoredFileActivityCreate`). -/
structure ActivityCreate where
  comment : GoStr
deriving DecidableEq

/-- `getIgnoredFileActivityCreate` (webhook.go:494-515); the payload-marshal
failure branch cannot trigger for the value domain modelled here. -/
def getIgnoredFileActivityCreate (file : GoStr) (err : GoStr) : ActivityCreate :=
  ⟨("Ignored file ".data) ++ file ++ (", ".data) ++ err ++ (".".data)⟩

/-- The fields of `db.MigrationInfo` constructed at webhook.go:602-610. -/
structure MigrationInfo where
  version : GoStr
  namespaceStr : GoStr
  database : GoStr
  environment : GoStr
  source : GoStr
  migrationType : GoStr
  description : GoStr
deriving DecidableEq

/-- Indexing a Go `map[string]string` (zero value `""` when absent), for the
`schemaInfo["DB_NAME"]` / `schemaInfo["ENV_NAME"]` reads at webhook.go:554,
569. -/
def mapGet (m : List (GoStr × GoStr)) (k : GoStr) : GoStr :=
  ((m.find? (fun p => p.1 == k)).map Prod.snd).getD []

/-- `prepareIssueFromPushEventSDL` (webhook.go:553-622). External
collaborators are oracle arguments: `readFileContent` is the outcome of
`s.readFileContent` (webhook.go:562), `foundDatabases` the store result
consumed by `findProjectDatabases` (webhook.go:579), `computeDiff db content`
the outcome of `s.computeDatabaseSchemaDiff` (webhook.go:586), and
`defaultVersion` the value of `common.DefaultMigrationVersion()`. The final
rewrite of `pushEvent.FileCommit.Added` (webhook.go:612-620) mutates only the
logged push event and is not modelled. -/
def prepareIssueFromPushEventSDL (tenantMode : Bool)
    (schemaInfo : List (GoStr × GoStr))
    (readFileContent : Except GoStr GoStr)
    (foundDatabases : List ProjDatabase)
    (computeDiff : ProjDatabase → GoStr → Except GoStr GoStr)
    (defaultVersion : GoStr) (file : GoStr) :
    Option MigrationInfo × List MigrationDetail × List ActivityCreate :=
  let dbName := mapGet schemaInfo ("DB_NAME".data)
  if dbName = [] then (none, [], [])
  else
    match readFileContent with
    | .error e =>
      (none, [], [getIgnoredFileActivityCreate file (("Failed to read file content: ".data) ++ e)])
    | .ok content =>
      let envName := mapGet schemaInfo ("ENV_NAME".data)
      let migrationInfo : MigrationInfo :=
        ⟨defaultVersion, dbName, dbName, envName, ("VCS".data), ("MIGRATE".data),
          ("Apply schema diff".data)⟩
      if tenantMode then
        (some migrationInfo, [{ databaseName := dbName, statement := content }], [])
      else
        match findProjectDatabases tenantMode envName foundDatabases with
        | .error e =>
          (none, [],
            [getIgnoredFileActivityCreate file (("Failed to find project databases: ".data) ++ e)])
        | .ok databases =>
          let folded :=
            databases.foldl (fun (acc : List MigrationDetail × List ActivityCreate) database =>
              match computeDiff database content with
              | .error e =>
                (acc.1,
                  acc.2 ++ [getIgnoredFileActivityCreate file
                    (("Failed to compute database schema diff: ".data) ++ e)])
              | .ok diff =>
                (acc.1 ++ [{ databaseID := database.id, statement := diff }], acc.2)) ([], [])
          (some migrationInfo, folded.1, folded.2)

/-- The two databases of the C7 counterexample: same environment id 7. -/
def c7Dbs : List ProjDatabase := [⟨1, 7, ("prod".data)⟩, ⟨2, 7, ("prod".data)⟩]

/-- The single database of the C8 counterexample. -/
def c8Db : ProjDatabase := ⟨11, 5, ("dev".data)⟩

/-- The slice of an `api.Task` row read by the modified-file branch of
`prepareIssueFromPushEventDDL`: its id and pipeline id. -/
structure TaskRec where
  id : Nat
  pipelineID : Nat
deriving DecidableEq

/-- The observable outcome of `prepareIssueFromPushEventDDL`: the returned
migration details and activities (its two Go return values), plus the ids of
the tasks whose statement patch succeeded (the mutation trail of
`s.patchTask`, webhook.go:699). -/
structure DDLPrepResult where
  detailList : List MigrationDetail
  activityCreateList : List ActivityCreate
  patchedTaskIDs : List Nat
deriving DecidableEq

/-- The modified-file loop of `prepareIssueFromPushEventDDL`
(webhook.go:666-705). Oracles: `findTask db` is the store result of
`FindTask` scoped to database `db` with status `{PendingApproval, Failed}`,
type `{DatabaseSchemaUpdate, DatabaseDataUpdate}` and
payload schema version equal to the parsed version; `getIssue` is
`GetIssueByPipelineID`; `patchTask` is `s.patchTask` (`ok` means the task's
statement was patched in place). A store error yields an ignored-file
activity; an issue-lookup failure, a patch failure, or more than one matching
task abort the loop with no further mutation (log-only in the source); the
loop always returns an empty detail list. -/
def modifiedFileLoop (findTask : Nat → Except GoStr (List TaskRec))
    (getIssue : Nat → Except GoStr Nat)
    (patchTask : Nat → Except GoStr Unit)
    (file : GoStr) : List Nat → List Nat → DDLPrepResult
  | [], patched => ⟨[], [], patched⟩
  | db :: rest, patched =>
    match findTask db with
    | .error e =>
      ⟨[], [getIgnoredFileActivityCreate file (("Failed to find project task: ".data) ++ e)],
        patched⟩
    | .ok [] => modifiedFileLoop findTask getIssue patchTask file rest patched
    | .ok [t] =>
      match getIssue t.pipelineID with
      | .error _ => ⟨[], [], patched⟩
      | .ok _ =>
        match patchTask t.id with
        | .error _ => ⟨[], [], patched⟩
        | .ok _ => modifiedFileLoop findTask getIssue patchTask file rest (patched ++ [t.id])
    | .ok (_ :: _ :: _) => ⟨[], [], patched⟩

/-- `prepareIssueFromPushEventDDL` (webhook.go:626-705). `readFileContent`,
`foundDatabases` and the task oracles are the external collaborators as in
the SDL model; `migrationDatabase`, `migrationEnvironment` and
`migrationVersion` are the fields of the parsed `db.MigrationInfo`. -/
def prepareIssueFromPushEventDDL (tenantMode : Bool)
    (readFileContent : Except GoStr GoStr)
    (foundDatabases : List ProjDatabase)
    (findTask : Nat → Except GoStr (List TaskRec))
    (getIssue : Nat → Except GoStr Nat)
    (patchTask : Nat → Except GoStr Unit)
    (file : GoStr) (fileType : FileItemType)
    (migrationDatabase migrationEnvironment migrationVersion : GoStr) : DDLPrepResult :=
  match readFileContent with
  | .error e =>
    ⟨[], [getIgnoredFileActivityCreate file (("Failed to read file content: ".data) ++ e)], []⟩
  | .ok content =>
    if tenantMode then
      ⟨[{ databaseName := migrationDatabase, statement := content,
          schemaVersion := migrationVersion }], [], []⟩
    else
      match findProjectDatabases tenantMode migrationEnvironment foundDatabases with
      | .error e =>
        ⟨[], [getIgnoredFileActivityCreate file
          (("Failed to find project databases: ".data) ++ e)], []⟩
      | .ok databases =>
        if fileType = .added then
          ⟨databases.map (fun db =>
            { databaseID := db.id, statement := content, schemaVersion := migrationVersion }),
            [], []⟩
        else
          modifiedFileLoop findTask getIssue patchTask file (databases.map (fun db => db.id)) []

/-- C6 concrete task-query oracle: database 1 has exactly one matching task
(id 10), database 2 has two matching tasks. -/
def c6FindTask : Nat → Except GoStr (List TaskRec) :=
  fun db => if db = 1 then .ok [⟨10, 100⟩] else .ok [⟨11, 101⟩, ⟨12, 102⟩]

/-- C6 concrete issue-lookup oracle. -/
def c6GetIssue : Nat → Except GoStr Nat := fun _ => .ok 500

/-- C6 concrete patch oracle: every patch attempt succeeds. -/
def c6PatchTask : Nat → Except GoStr Unit := fun _ => .ok ()

/-- `parseBranchNameFromRefs` (webhook.go:335-342): strip `refs/heads/`; a
ref not carrying that marker, or equal to it with no suffix, is an error. -/
def parseBranchNameFromRefs (ref : GoStr) : Except GoStr GoStr :=
  let expectedPfx := ("refs/heads/".data)
  if hasPfx ref expectedPfx = false ∨ expectedPfx.length = ref.length then
    .error ("unexpected ref name".data)
  else
    .ok (ref.drop expectedPfx.length)

/-- The decimal digit character of `d < 10`. -/
def digitChar (d : Nat) : Char := Char.ofNat (48 + d)

/-- Fuelled decimal rendering (fuel ≥ number of digits). -/
def natToStrAux : Nat → Nat → GoStr
  | 0, _ => []
  | fuel + 1, n =>
    if n < 10 then [digitChar n] else natToStrAux fuel (n / 10) ++ [digitChar (n % 10)]

/-- Models `strconv.Itoa` for the non-negative ids seen here
(webhook.go:88, 106, 260). -/
def natToStr (n : Nat) : GoStr := natToStrAux (n + 1) n

/-- The repository-binding fields the webhook handlers read from an
`api.Repository` row: id, branch filter, whether a VCS row is attached,
the webhook shared secret, and the external repository id. -/
structure Repo where
  id : Nat
  branchFilter : GoStr
  hasVCS : Bool
  webhookSecretToken : GoStr
  externalID : GoStr
deriving DecidableEq

/-- The GitLab repo filter building `handleRepos` (webhook.go:74-93): a
binding is kept iff the branch filter equals the pushed branch, a VCS row is
attached, the `X-Gitlab-Token` header equals the stored secret, and the
payload project id renders to the stored external id — each failed check
logs and skips just that binding. -/
def gitlabHandleRepos (repos : List Repo) (branch headerToken : GoStr)
    (projectID : Nat) : List Repo :=
  repos.filter (fun repo =>
    repo.branchFilter == branch && repo.hasVCS &&
      headerToken == repo.webhookSecretToken && natToStr projectID == repo.externalID)

/-- The outcome of one `s.createIssueFromPushEvent` call (webhook.go:711):
its creation message, whether an issue was created, and its `*echo.HTTPError`
(modelled by the status code) if any. The call is an oracle keyed by
(repository id, file name); the per-repo activity bookkeeping the handlers
keep is log-only and does not influence control flow. -/
structure IssueOutcome where
  message : GoStr
  created : Bool
  httpErr : Option Nat
deriving DecidableEq

/-- The inner per-repo loop of the GitLab handler (webhook.go:101-136): the
oracle is attempted for every binding of `handleRepos`; a non-nil error only
skips that binding (`continue`, webhook.go:129-131). Returns the attempted
(repo id, file) calls in order, and the created messages. -/
def gitlabRepoLoop (oracle : Nat × GoStr → IssueOutcome) (file : GoStr) :
    List Repo → List (Nat × GoStr) × List GoStr
  | [] => ([], [])
  | repo :: rest =>
    let o := oracle (repo.id, file)
    let r := gitlabRepoLoop oracle file rest
    ((repo.id, file) :: r.1,
      (match o.httpErr with
        | some _ => []
        | none => if o.created then [o.message] else []) ++ r.2)

/-- The per-file loop of the GitLab handler (webhook.go:98-151): one inner
loop per deduplicated file item; nothing below the structural checks aborts
the request. -/
def gitlabFileLoop (oracle : Nat × GoStr → IssueOutcome) (handleRepos : List Repo) :
    List DistinctFileItem → List (Nat × GoStr) × List GoStr
  | [] => ([], [])
  | item :: rest =>
    let r1 := gitlabRepoLoop oracle item.fileName handleRepos
    let r2 := gitlabFileLoop oracle handleRepos rest
    (r1.1 ++ r2.1, r1.2 ++ r2.2)

/-- The GitLab webhook handler (webhook.go:41-156) after its structural
checks (readable body, push object kind, parsable ref, bindings found for
the endpoint id): filter the bindings into `handleRepos`, dedup the commit
list, run the loops. Returns the attempted calls and the HTTP 200 response
messages. -/
def gitlabProcessPush (parseTs : GoStr → Option Int)
    (oracle : Nat × GoStr → IssueOutcome) (repos : List Repo)
    (branch headerToken : GoStr) (projectID : Nat)
    (commitList : List WebhookCommit) : List (Nat × GoStr) × List GoStr :=
  gitlabFileLoop oracle (gitlabHandleRepos repos branch headerToken projectID)
    (dedupMigrationFilesFromCommitList parseTs commitList)

/-- The GitHub push-payload commit fields the handler reads
(`github.WebhookCommit`): id, the provider's distinct flag (false when the
commit is superseded by a later commit of the same push), and the added and
modified file paths. -/
structure GHCommit where
  id : GoStr
  distinct : Bool
  added : List GoStr
  modified : List GoStr
deriving DecidableEq

/-- The GitHub repo filter building `handleRepos` (webhook.go:198-221):
branch filter, attached VCS, valid HMAC signature over the raw body, and
matching repository full name. A signature-validation error would abort the
request with HTTP 500 (webhook.go:209-211), but
`validateGitHubWebhookSignature256` never errors. -/
def githubHandleRepos (repos : List Repo) (branch signature : GoStr)
    (body : List Nat) (pushFullName : GoStr) : List Repo :=
  repos.filter (fun repo =>
    repo.branchFilter == branch && repo.hasVCS &&
      (validateGitHubWebhookSignature256 signature repo.webhookSecretToken body).1 &&
      pushFullName == repo.externalID)

/-- The inner per-repo loop of the GitHub handler (webhook.go:252-306). It
ranges over the UNFILTERED `repos` list (webhook.go:255), and a non-nil
`httpErr` from the oracle aborts the whole request (`return httpErr`,
webhook.go:283-285). Returns the attempted calls, the created messages, and
the aborting error if any. -/
def githubRepoLoop (oracle : Nat × GoStr → IssueOutcome) (file : GoStr) :
    List Repo → List (Nat × GoStr) × List GoStr × Option Nat
  | [] => ([], [], none)
  | repo :: rest =>
    let o := oracle (repo.id, file)
    match o.httpErr with
    | some e => ([(repo.id, file)], [], some e)
    | none =>
      let r := githubRepoLoop oracle file rest
      ((repo.id, file) :: r.1, (if o.created then [o.message] else []) ++ r.2.1, r.2.2)

/-- The per-file loop of one GitHub commit (webhook.go:252-306): stops at
the first aborting repo loop. -/
def githubFileLoop (oracle : Nat × GoStr → IssueOutcome) (repos : List Repo) :
    List GoStr → List (Nat × GoStr) × List GoStr × Option Nat
  | [] => ([], [], none)
  | file :: rest =>
    let r1 := githubRepoLoop oracle file repos
    match r1.2.2 with
    | some e => (r1.1, r1.2.1, some e)
    | none =>
      let r2 := githubFileLoop oracle repos rest
      (r1.1 ++ r2.1, r1.2.1 ++ r2.2.1, r2.2.2)

/-- The files of one GitHub commit: added before modified
(webhook.go:234-250). -/
def githubCommitFiles (c : GHCommit) : List GoStr := c.added ++ c.modified

/-- The per-commit loop of the GitHub handler (webhook.go:224-307):
non-distinct commits are skipped (webhook.go:226-228); otherwise the file
loop runs and a raised error aborts the remaining commits too. -/
def githubCommitLoop (oracle : Nat × GoStr → IssueOutcome) (repos : List Repo) :
    List GHCommit → List (Nat × GoStr) × List GoStr × Option Nat
  | [] => ([], [], none)
  | c :: rest =>
    if !c.distinct then githubCommitLoop oracle repos rest
    else
      let r1 := githubFileLoop oracle repos (githubCommitFiles c)
      match r1.2.2 with
      | some e => (r1.1, r1.2.1, some e)
      | none =>
        let r2 := githubCommitLoop oracle repos rest
        (r1.1 ++ r2.1, r1.2.1 ++ r2.2.1, r2.2.2)

/-- The GitHub webhook handler (webhook.go:157-313) after its structural
checks (push event type, bindings found, readable body, parsable ref): the
per-commit/per-file/per-repo loops, which range over the unfiltered `repos`
(the computed `handleRepos` feeds only logging and the ignored-file activity
fallback). -/
def githubProcessPush (oracle : Nat × GoStr → IssueOutcome) (repos : List Repo)
    (commits : List GHCommit) : List (Nat × GoStr) × List GoStr × Option Nat :=
  githubCommitLoop oracle repos commits

/-- Spec-side list (for C5): all (repo id, file) combinations of a GitHub
push, in handler order — distinct commits only, added before modified files,
repos in binding order. -/
def githubAllPairs (repos : List Repo) (commits : List GHCommit) : List (Nat × GoStr) :=
  (commits.filter (fun c => c.distinct)).flatMap (fun c =>
    (githubCommitFiles c).flatMap (fun f => repos.map (fun r => (r.id, f))))

/-- Spec-side reference (for C5): attempt the pairs in order, stopping at
(and including) the first one whose oracle outcome carries an error. -/
def takeUntilErr (oracle : Nat × GoStr → IssueOutcome) :
    List (Nat × GoStr) → List (Nat × GoStr) × Option Nat
  | [] => ([], none)
  | p :: ps =>
    match (oracle p).httpErr with
    | some e => ([p], some e)
    | none =>
      let r := takeUntilErr oracle ps
      (p :: r.1, r.2)

/-- C1 concrete binding: branch filter `dev` (mismatching the pushed branch
`main`). -/
def c1Repo : Repo := ⟨1, ("dev".data), true, ("secret".data), ("org/repo".data)⟩

/-- C1 concrete oracle: every call succeeds and creates an issue. -/
def c1Oracle : Nat × GoStr → IssueOutcome := fun _ => ⟨("msg".data), true, none⟩

/-- C1 concrete distinct commit adding one migration file. -/
def c1Commit : GHCommit := ⟨("c1".data), true, [("m.sql".data)], []⟩

/-- C5 concrete oracle: fails (HTTP 500) exactly on file `a.sql`. -/
def c5Oracle : Nat × GoStr → IssueOutcome :=
  fun p => if p.2 == ("a.sql".data) then ⟨[], false, some 500⟩
    else ⟨("msg".data), true, none⟩

/-- C5 concrete binding. -/
def c5Repo : Repo := ⟨1, ("main".data), true, ("secret".data), ("org/repo".data)⟩

/-- C5 concrete distinct commit adding `a.sql` then `b.sql`. -/
def c5Commit : GHCommit := ⟨("c1".data), true, [("a.sql".data), ("b.sql".data)], []⟩

/-- The base-directory scope check of `createIssueFromPushEvent`
(webhook.go:724-730): a plain `strings.HasPrefix` test of the (escaped) file
path against the repository's base directory; a path failing it is ignored
as out of scope (early return, no side effect), and only such paths are. -/
def fileInRepoBaseDirectory (baseDirectory fileEscaped : GoStr) : Bool :=
  hasPfx fileEscaped baseDirectory

/-- Fuelled core of `strings.ReplaceAll`: non-overlapping, left-to-right
replacement. The fuel decreases by one per step while at least one character
of `s` is consumed, so `fuel = s.length` always suffices. An empty `old`
never occurs at the call sites (Go would interleave `new` between runes). -/
def replaceAllAux (old new : GoStr) : Nat → GoStr → GoStr
  | 0, s => s
  | fuel + 1, s =>
    if old ≠ [] ∧ hasPfx s old then new ++ replaceAllAux old new fuel (s.drop old.length)
    else
      match s with
      | [] => []
      | c :: rest => c :: replaceAllAux old new fuel rest

/-- Models `strings.ReplaceAll(s, old, new)` (webhook.go:870, 877). -/
def replaceAll (s old new : GoStr) : GoStr := replaceAllAux old new s.length s

/-- Split on `'/'`, keeping empty segments (helper for `path.Clean`). -/
def splitOnSlashAux : GoStr → GoStr → List GoStr
  | [], cur => [cur.reverse]
  | '/' :: rest, cur => cur.reverse :: splitOnSlashAux rest []
  | c :: rest, cur => splitOnSlashAux rest (c :: cur)

/-- Split a path on `'/'`. -/
def splitOnSlash (s : GoStr) : List GoStr := splitOnSlashAux s []

/-- The element processing of Go `path.Clean`: skip empty and `.` segments,
let `..` pop the previous segment (or survive at the head of a relative
path, or vanish at the root of a rooted one). -/
def cleanPartsAux (rooted : Bool) : List GoStr → List GoStr → List GoStr
  | [], acc => acc.reverse
  | p :: ps, acc =>
    if p = [] ∨ p = ['.'] then cleanPartsAux rooted ps acc
    else if p = ['.', '.'] then
      match acc with
      | [] => if rooted then cleanPartsAux rooted ps [] else cleanPartsAux rooted ps [p]
      | a :: rest =>
        if a = ['.', '.'] then cleanPartsAux rooted ps (p :: acc)
        else cleanPartsAux rooted ps rest
    else cleanPartsAux rooted ps (p :: acc)

/-- Join path segments with `'/'`. -/
def joinSlash : List GoStr → GoStr
  | [] => []
  | [p] => p
  | p :: ps => p ++ '/' :: joinSlash ps

/-- Models Go `path.Clean` (purely lexical cleaning). -/
def pathClean (s : GoStr) : GoStr :=
  if s = [] then ['.']
  else
    let rooted := hasPfx s ['/']
    let out := joinSlash (cleanPartsAux rooted (splitOnSlash s) [])
    if rooted then (if out = [] then ['/'] else '/' :: out)
    else (if out = [] then ['.'] else out)

/-- Models Go `path.Join` for two elements (webhook.go:620, 755, 881): skip
empty elements, join the rest with `'/'` — always the forward slash, never
an OS-specific separator — and clean; all-empty yields the empty string. -/
def pathJoin (a b : GoStr) : GoStr :=
  if a = [] ∧ b = [] then []
  else if a = [] then pathClean b
  else pathClean (a ++ '/' :: b)

/-- One atom of the regex fragment that `parseSchemaFileInfo` generates: a
literal character (either plain or `\`-escaped), or a named one-or-more
repetition of a character class — the shape of `(?P<name>[...]+)`. -/
inductive RItem where
  | lit (c : Char)
  | clsPlus (name : GoStr) (cls : List (Char × Char))
deriving DecidableEq

/-- Parse the inside of a character class up to `]`: `a-b` ranges and single
characters, as pairs of (low, high). Fuel ≥ input length. -/
def parseCls : Nat → GoStr → Option (List (Char × Char) × GoStr)
  | 0, _ => none
  | _ + 1, ']' :: rest => some ([], rest)
  | fuel + 1, a :: '-' :: b :: rest =>
    if b = ']' then
      match parseCls fuel ('-' :: b :: rest) with
      | some (cs, r) => some ((a, a) :: cs, r)
      | none => none
    else
      match parseCls fuel rest with
      | some (cs, r) => some ((a, b) :: cs, r)
      | none => none
  | fuel + 1, a :: rest =>
    match parseCls fuel rest with
    | some (cs, r) => some ((a, a) :: cs, r)
    | none => none
  | _, [] => none

/-- Parse a group name up to `>`. Fuel ≥ input length. -/
def parseGroupName : Nat → GoStr → Option (GoStr × GoStr)
  | 0, _ => none
  | _ + 1, '>' :: rest => some ([], rest)
  | fuel + 1, c :: rest =>
    match parseGroupName fuel rest with
    | some (n, r) => some (c :: n, r)
    | none => none
  | _, [] => none

/-- Compile the regex source fragment that webhook.go:870-881 generates from
a placeholder template: plain literal characters, `\`-escaped literals, and
`(?P<name>[class]+)` named groups. Regex constructs outside this fragment
(which cannot arise from a dot-and-placeholder template) are rejected, as is
a trailing backslash. Fuel ≥ input length. -/
def regexCompileAux : Nat → GoStr → Option (List RItem)
  | 0, _ => none
  | _ + 1, [] => some []
  | fuel + 1, '\\' :: c :: rest =>
    (regexCompileAux fuel rest).map (fun ps => .lit c :: ps)
  | fuel + 1, '(' :: '?' :: 'P' :: '<' :: rest =>
    match parseGroupName rest.length rest with
    | none => none
    | some (name, rest2) =>
      match rest2 with
      | '[' :: rest3 =>
        match parseCls rest3.length rest3 with
        | none => none
        | some (cls, rest4) =>
          match rest4 with
          | '+' :: ')' :: rest5 =>
            (regexCompileAux fuel rest5).map (fun ps => .clsPlus name cls :: ps)
          | _ => none
      | _ => none
  | _ + 1, ['\\'] => none
  | fuel + 1, c :: rest =>
    if c = '(' ∨ c = ')' ∨ c = '[' ∨ c = ']' ∨ c = '*' ∨ c = '+' ∨ c = '?' ∨ c = '|' ∨
        c = '^' ∨ c = '$' ∨ c = '.' then none
    else (regexCompileAux fuel rest).map (fun ps => .lit c :: ps)

/-- Character-class membership. -/
def inCls (cls : List (Char × Char)) (c : Char) : Bool :=
  cls.any (fun p => decide (p.1 ≤ c) && decide (c ≤ p.2))

/-- Length of the longest class-member run at the head of the input. -/
def maxRun (cls : List (Char × Char)) : GoStr → Nat
  | [] => 0
  | c :: rest => if inCls cls c then maxRun cls rest + 1 else 0

/-- `[n, n-1, …, 1]`: the candidate repetition lengths, longest first. -/
def countdown : Nat → List Nat
  | 0 => []
  | n + 1 => (n + 1) :: countdown n

/-- Matching of the compiled fragment at the start of `s`, with greedy
(longest-first, backtracking) one-or-more repetition — the leftmost-first
submatch semantics of Go's `regexp` on these patterns. Returns the captures
in group order and the unconsumed remainder. One pattern atom consumes one
fuel unit, so fuel ≥ pattern length suffices. -/
def matchSeq : Nat → List RItem → GoStr → Option (List (GoStr × GoStr) × GoStr)
  | _, [], s => some ([], s)
  | 0, _ :: _, _ => none
  | fuel + 1, .lit c :: ps, s =>
    match s with
    | [] => none
    | x :: rest => if x = c then matchSeq fuel ps rest else none
  | fuel + 1, .clsPlus name cls :: ps, s =>
    (countdown (maxRun cls s)).findSome? (fun n =>
      (matchSeq fuel ps (s.drop n)).map (fun r => ((name, s.take n) :: r.1, r.2)))

/-- `FindStringSubmatch` semantics for the fragment: try a match at every
start position, left to right, and return the first success's captures —
note: no anchoring at either end. -/
def findSub (ps : List RItem) : GoStr → Option (List (GoStr × GoStr))
  | [] => (matchSeq (ps.length + 1) ps []).map Prod.fst
  | c :: rest =>
    match matchSeq (ps.length + 1) ps (c :: rest) with
    | some r => some r.1
    | none => findSub ps rest

/-- The `{{`/`}}`-delimited placeholder token for `name` (the braces are
spelled by code point: 123 is the opening and 125 the closing brace). -/
def placeholderToken (name : GoStr) : GoStr :=
  Char.ofNat 123 :: Char.ofNat 123 :: name ++ [Char.ofNat 125, Char.ofNat 125]

/-- The named capture pattern substituted for a placeholder at
webhook.go:877. -/
def placeholderPattern (name : GoStr) : GoStr :=
  ("(?P<".data) ++ name ++ (">[a-zA-Z0-9+-=/_#?!$. ]+)".data)

/-- `parseSchemaFileInfo` (webhook.go:864-897): empty template means no
schema-snapshot convention (`ok none`); otherwise escape the dots,
substitute the `ENV_NAME` and `DB_NAME` placeholders by named capture
patterns, join with the base directory via `path.Join`, compile, and search
the candidate path with `FindStringSubmatch` (leftmost, unanchored). A hit
yields the placeholder-name → captured-value association in group order
(the content of the Go map built from `SubexpNames`); a pattern the compiler
rejects is an error. -/
def parseSchemaFileInfo (baseDirectory schemaPathTemplate file : GoStr) :
    Except GoStr (Option (List (GoStr × GoStr))) :=
  if schemaPathTemplate = [] then .ok none
  else
    let r1 := replaceAll schemaPathTemplate (".".data) ("\\.".data)
    let r2 := replaceAll r1 (placeholderToken ("ENV_NAME".data))
      (placeholderPattern ("ENV_NAME".data))
    let r3 := replaceAll r2 (placeholderToken ("DB_NAME".data))
      (placeholderPattern ("DB_NAME".data))
    let joined := pathJoin baseDirectory r3
    match regexCompileAux (joined.length + 1) joined with
    | none => .error ("compile schema file path regex".data)
    | some ps =>
      match findSub ps file with
      | none => .ok none
      | some caps => .ok (some caps)

/-- The C9 template `ENV_NAME/DB_NAME/schema.sql` with placeholder tokens. -/
def c9Template : GoStr :=
  placeholderToken ("ENV_NAME".data) ++ ('/' :: placeholderToken ("DB_NAME".data)) ++
    ("/schema.sql".data)

/-- The C9 template after dot-escaping and placeholder substitution. -/
def c9SubstitutedRegex : GoStr :=
  replaceAll
    (replaceAll (replaceAll c9Template (".".data) ("\\.".data))
      (placeholderToken ("ENV_NAME".data)) (placeholderPattern ("ENV_NAME".data)))
    (placeholderToken ("DB_NAME".data)) (placeholderPattern ("DB_NAME".data))

-- ===================================================================
-- THEOREMS
-- ===================================================================

theorem fileName_addDistinctFile (item : DistinctFileItem) (l : List DistinctFileItem) :
    (addDistinctFile item l).map DistinctFileItem.fileName =
      insertFirstOccurrence (l.map DistinctFileItem.fileName) item.fileName := by
  induction l with
  | nil => simp [addDistinctFile, insertFirstOccurrence]
  | cons file rest ih =>
    by_cases h : item.fileName = file.fileName
    · simp only [addDistinctFile, if_pos h, insertFirstOccurrence, List.map_cons,
        List.mem_cons, h, true_or, if_pos]
      by_cases ht : file.createdTime < item.createdTime <;> simp [ht, h]
    · simp only [addDistinctFile, if_neg h, List.map_cons, ih, insertFirstOccurrence,
        List.mem_cons]
      by_cases hm : item.fileName ∈ rest.map DistinctFileItem.fileName
      · simp [hm, h]
      · simp [hm, h]

theorem map_processCommitFiles (createdTime : Int) (commit : WebhookCommit)
    (itemType : FileItemType) (files : List GoStr) (acc : List DistinctFileItem) :
    (processCommitFiles createdTime commit itemType files acc).map DistinctFileItem.fileName =
      files.foldl insertFirstOccurrence (acc.map DistinctFileItem.fileName) := by
  induction files generalizing acc with
  | nil => simp [processCommitFiles]
  | cons f fs ih =>
    simp only [processCommitFiles, List.foldl_cons] at *
    rw [ih, fileName_addDistinctFile]

theorem map_dedup_aux (parseTs : GoStr → Option Int) (cs : List WebhookCommit)
    (acc : List DistinctFileItem) :
    (cs.foldl (fun acc commit =>
        let createdTime := (parseTs commit.timestamp).getD goZeroTime
        processCommitFiles createdTime commit .modified commit.modifiedList
          (processCommitFiles createdTime commit .added commit.addedList acc)) acc).map
        DistinctFileItem.fileName =
      cs.foldl (fun acc commit =>
        (commit.addedList ++ commit.modifiedList).foldl insertFirstOccurrence acc)
        (acc.map DistinctFileItem.fileName) := by
  induction cs generalizing acc with
  | nil => rfl
  | cons c cs ih =>
    simp only [List.foldl_cons]
    rw [ih, map_processCommitFiles, map_processCommitFiles, List.foldl_append]

theorem nodup_foldl_insertFirstOccurrence (files : List GoStr) (acc : List GoStr)
    (h : acc.Nodup) : (files.foldl insertFirstOccurrence acc).Nodup := by
  induction files generalizing acc with
  | nil => exact h
  | cons f fs ih =>
    simp only [List.foldl_cons]
    apply ih
    by_cases hm : f ∈ acc
    · simpa [insertFirstOccurrence, hm] using h
    · simp [insertFirstOccurrence, hm, List.nodup_append, h]

/-- C2: for every input commit list, the output of
`dedupMigrationFilesFromCommitList` has at most one entry per distinct file
path (the projected path list has no duplicates), and the sequence of paths
equals the first-occurrence order of paths across the input commit list
(added before modified within a commit), for every timestamp parser — i.e.
regardless of which replacements occurred. -/
theorem c2_dedup_unique_paths_in_first_occurrence_order
    (parseTs : GoStr → Option Int) (commitList : List WebhookCommit) :
    ((dedupMigrationFilesFromCommitList parseTs commitList).map
        DistinctFileItem.fileName).Nodup ∧
    (dedupMigrationFilesFromCommitList parseTs commitList).map DistinctFileItem.fileName =
      firstOccurrencePaths commitList := by
  have heq : (dedupMigrationFilesFromCommitList parseTs commitList).map
      DistinctFileItem.fileName = firstOccurrencePaths commitList := by
    have h := map_dedup_aux parseTs commitList []
    simpa [dedupMigrationFilesFromCommitList, firstOccurrencePaths] using h
  refine ⟨?_, heq⟩
  rw [heq]
  clear heq
  unfold firstOccurrencePaths
  induction commitList using List.reverseRecOn with
  | nil => simp
  | append_singleton cs c ih =>
    rw [List.foldl_append]
    exact nodup_foldl_insertFirstOccurrence _ _ ih

/-- C3: in `dedupMigrationFilesFromCommitList`, when a commit mentions a file
path that already has an entry (`x`, at its original position), the entry is
replaced in place by the new item if and only if the new commit's parsed
timestamp is strictly later than the stored entry's; otherwise the list is
unchanged. In particular, when file `F` is added in a commit with parsed time
1 and modified in a commit with parsed time 2, the sole output entry for `F`
carries the second commit's metadata (its commit record, time 2, and item
type `modified`). -/
theorem c3_replace_in_place_iff_strictly_later :
    (∀ (pre post : List DistinctFileItem) (x item : DistinctFileItem),
      (∀ y ∈ pre, y.fileName ≠ item.fileName) → x.fileName = item.fileName →
      addDistinctFile item (pre ++ x :: post) =
        pre ++ (if x.createdTime < item.createdTime then item else x) :: post) ∧
    dedupMigrationFilesFromCommitList c3Parse [c3Commit1, c3Commit2] =
      [⟨2, c3Commit2, ("F".data), .modified⟩] := by
  constructor
  · intro pre post x item hpre hx
    induction pre with
    | nil => simp [addDistinctFile, hx.symm]
    | cons p pre ih =>
      have hp : p.fileName ≠ item.fileName := hpre p (by simp)
      have hrest : ∀ y ∈ pre, y.fileName ≠ item.fileName := fun y hy => hpre y (by simp [hy])
      simp only [List.cons_append, addDistinctFile, List.append_eq]
      rw [if_neg (fun hc => hp hc.symm), ih hrest]
  · decide

/-- Witness for C3: instantiates the replacement rule at a concrete list. -/
theorem c3_replace_in_place_iff_strictly_later_witness :
    addDistinctFile ⟨2, c3Commit2, ("F".data), .modified⟩
        [⟨1, c3Commit1, ("F".data), .added⟩] =
      [⟨2, c3Commit2, ("F".data), .modified⟩] := by
  have h := c3_replace_in_place_iff_strictly_later.1 [] []
      ⟨1, c3Commit1, ("F".data), .added⟩ ⟨2, c3Commit2, ("F".data), .modified⟩
      (by simp) rfl
  simpa using h

theorem nat_or_eq_zero_iff (a b : Nat) : a ||| b = 0 ↔ a = 0 ∧ b = 0 := by
  constructor
  · intro h
    constructor
    · apply Nat.eq_of_testBit_eq
      intro i
      have := congrArg (fun t => Nat.testBit t i) h
      simp only [Nat.testBit_or, Nat.zero_testBit, Bool.or_eq_false_iff] at this ⊢
      exact this.1
    · apply Nat.eq_of_testBit_eq
      intro i
      have := congrArg (fun t => Nat.testBit t i) h
      simp only [Nat.testBit_or, Nat.zero_testBit, Bool.or_eq_false_iff] at this ⊢
      exact this.2
  · rintro ⟨rfl, rfl⟩
    rfl

theorem foldl_or_eq_zero (l : List Nat) (acc : Nat) :
    l.foldl (fun v z => v ||| z) acc = 0 ↔ acc = 0 ∧ ∀ z ∈ l, z = 0 := by
  induction l generalizing acc with
  | nil => simp
  | cons a l ih =>
    simp only [List.foldl_cons, ih, nat_or_eq_zero_iff, List.mem_cons]
    constructor
    · rintro ⟨⟨h1, h2⟩, h3⟩
      exact ⟨h1, fun z hz => hz.elim (fun he => he ▸ h2) (h3 z)⟩
    · rintro ⟨h1, h2⟩
      exact ⟨⟨h1, h2 a (Or.inl rfl)⟩, fun z hz => h2 z (Or.inr hz)⟩

theorem eq_of_zipWith_xor (x : List Nat) : ∀ (y : List Nat), x.length = y.length →
    (∀ z ∈ List.zipWith (fun a b => a ^^^ b) x y, z = 0) → x = y := by
  induction x with
  | nil => intro y hl _; cases y with
    | nil => rfl
    | cons b y => simp at hl
  | cons a x ih =>
    intro y hl h
    cases y with
    | nil => simp at hl
    | cons b y =>
      simp only [List.zipWith_cons_cons, List.mem_cons] at h
      have hab : a ^^^ b = 0 := h _ (Or.inl rfl)
      have hA : a = b := by
        calc a = (a ^^^ b) ^^^ b := by rw [Nat.xor_assoc, Nat.xor_self, Nat.xor_zero]
        _ = 0 ^^^ b := by rw [hab]
        _ = b := Nat.zero_xor b
      rw [hA, ih y (by simpa using hl) (fun z hz => h z (Or.inr hz))]

theorem zipWith_xor_self_foldl (x : List Nat) :
    (List.zipWith (fun a b => a ^^^ b) x x).foldl (fun v z => v ||| z) 0 = 0 := by
  apply (foldl_or_eq_zero _ _).mpr
  refine ⟨rfl, ?_⟩
  induction x with
  | nil => simp
  | cons a x ih =>
    intro z hz
    simp only [List.zipWith_cons_cons, List.mem_cons, Nat.xor_self] at hz
    exact hz.elim id (fun h => ih z h)

theorem constantTimeCompare_eq_one_iff (x y : List Nat) :
    constantTimeCompare x y = 1 ↔ x = y := by
  unfold constantTimeCompare
  by_cases hl : x.length = y.length
  · rw [if_pos hl]
    by_cases hz : (List.zipWith (fun a b => a ^^^ b) x y).foldl (fun v z => v ||| z) 0 = 0
    · rw [if_pos hz]
      simp only [true_iff]
      exact eq_of_zipWith_xor x y hl ((foldl_or_eq_zero _ _).mp hz).2
    · rw [if_neg hz]
      constructor
      · intro h0; exact absurd h0 (by decide)
      · intro hxy
        subst hxy
        exact absurd (zipWith_xor_self_foldl x) hz
  · rw [if_neg hl]
    constructor
    · intro h0; exact absurd h0 (by decide)
    · intro hxy; subst hxy; exact absurd rfl hl

theorem charToNat_inj (c d : Char) (h : c.toNat = d.toNat) : c = d := by
  have h1 := Char.ofNat_toNat c
  have h2 := Char.ofNat_toNat d
  rw [← h1, ← h2, h]

theorem strBytes_inj (a : GoStr) : ∀ (b : GoStr), strBytes a = strBytes b → a = b := by
  induction a with
  | nil => intro b h; cases b with
    | nil => rfl
    | cons d b => simp [strBytes] at h
  | cons c a ih =>
    intro b h
    cases b with
    | nil => simp [strBytes] at h
    | cons d b =>
      simp only [strBytes, List.map_cons, List.cons.injEq] at h
      rw [charToNat_inj c d h.1, ih b h.2]

theorem hexDigitChar_mem (n : Nat) : hexDigitChar n ∈ hexTableChars := by
  match n with
  | 0 | 1 | 2 | 3 | 4 | 5 | 6 | 7 | 8 | 9 | 10 | 11 | 12 | 13 | 14 | 15 => decide
  | n + 16 =>
    have hle : hexTableChars.length ≤ n + 16 := by
      have : hexTableChars.length = 16 := by decide
      omega
    unfold hexDigitChar
    rw [List.getD_eq_default _ _ hle]
    decide

theorem hexEncode_all_lower (bs : List Nat) :
    (hexEncodeToString bs).all (fun c => hexTableChars.contains c) = true := by
  induction bs with
  | nil => rfl
  | cons b bs ih =>
    simp only [hexEncodeToString, List.flatMap_cons, List.all_append, Bool.and_eq_true] at *
    exact ⟨by simp [List.all, hexDigitChar_mem], ih⟩

/-- C4: `validateGitHubWebhookSignature256` never returns an error (the HMAC
write of the source cannot fail), and it returns `true` exactly when the
signature header, after stripping the `sha256=` marker, equals the hex
encoding of the HMAC-SHA256 of the raw body under the stored secret key;
moreover that encoding consists only of lowercase hex digits. Flipping any
bit of the body or key that changes the HMAC digest therefore makes the
comparison, and hence the result, false. -/
theorem c4_signature_validation_characterization (signature key : GoStr) (body : List Nat) :
    (validateGitHubWebhookSignature256 signature key body).2 = none ∧
    ((validateGitHubWebhookSignature256 signature key body).1 = true ↔
      trimPfx signature sha256Pfx = hexEncodeToString (hmacSha256 (strBytes key) body)) ∧
    (hexEncodeToString (hmacSha256 (strBytes key) body)).all
      (fun c => hexTableChars.contains c) = true := by
  refine ⟨rfl, ?_, hexEncode_all_lower _⟩
  unfold validateGitHubWebhookSignature256
  simp only [beq_iff_eq]
  rw [constantTimeCompare_eq_one_iff]
  constructor
  · exact fun h => strBytes_inj _ _ h
  · intro h; rw [h]

/-- C7 counterexample: in tenant mode with an empty environment argument,
`findProjectDatabases` succeeds even though two databases of the returned set
share the same environment id — refuting the claim that the function "errors
exactly when … two databases in the returned set share the same environment
id". -/
theorem c7_counterexample_tenant_mode_skips_uniqueness :
    ∃ l, findProjectDatabases true [] c7Dbs = .ok l ∧
      ¬ (l.map ProjDatabase.environmentID).Nodup := by
  refine ⟨c7Dbs, rfl, by decide⟩

/-- C7 (amended): `findProjectDatabases` errors exactly when the project has
no database of the name, or the project is tenant-mode with a non-empty
environment, or (non-tenant only) a non-empty environment filters the
candidates (case-insensitively) down to zero, or (non-tenant only) two of the
filtered candidates share an environment id; in tenant mode with empty
environment the found list is returned without the uniqueness check, and on
success the returned list is the (possibly environment-filtered) candidate
list. -/
theorem c7_amended_error_characterization (tenantMode : Bool) (envName : GoStr)
    (dbs : List ProjDatabase) :
    ((findProjectDatabases tenantMode envName dbs).isOk = false ↔
      (dbs = [] ∨ (tenantMode = true ∧ envName ≠ []) ∨
        (tenantMode = false ∧ envName ≠ [] ∧
          dbs.filter (fun d => equalFold d.environmentName envName) = []) ∨
        (tenantMode = false ∧
          hasDupEnvironmentID
            (if envName ≠ [] then dbs.filter (fun d => equalFold d.environmentName envName)
             else dbs) [] = true))) ∧
    (∀ l, findProjectDatabases tenantMode envName dbs = .ok l →
      l = if tenantMode = true then dbs
          else if envName ≠ [] then dbs.filter (fun d => equalFold d.environmentName envName)
          else dbs) := by
  constructor
  · simp only [findProjectDatabases]
    split_ifs with h1 h2 h3 h4 h5 <;>
      simp_all [Except.isOk, Except.toBool, List.length_eq_zero,
        List.eq_nil_of_length_eq_zero]
  · intro l hl
    simp only [findProjectDatabases] at hl
    split_ifs at hl with h1 h2 h3 h4 h5 <;> simp_all

/-- Witness for C7 (amended): concrete instantiation — a non-tenant project
with two databases in distinct environments, filtered by environment `prod`. -/
theorem c7_amended_error_characterization_witness :
    (findProjectDatabases false ("prod".data)
        [⟨1, 7, ("prod".data)⟩, ⟨2, 8, ("staging".data)⟩]).isOk = true ∧
    (findProjectDatabases false ("prod".data)
        [⟨1, 7, ("prod".data)⟩, ⟨2, 8, ("staging".data)⟩] = .ok [⟨1, 7, ("prod".data)⟩]) := by
  have h := (c7_amended_error_characterization false ("prod".data)
      [⟨1, 7, ("prod".data)⟩, ⟨2, 8, ("staging".data)⟩]).2
      [⟨1, 7, ("prod".data)⟩] rfl
  exact ⟨by decide, rfl⟩

/-- C8 counterexample: in the non-tenant SDL branch, a database whose
computed schema diff is the empty string still yields a `MigrationDetail`
(with empty statement) — the source appends unconditionally at
webhook.go:593-598, refuting "an empty diff yields no MigrationDetail". -/
theorem c8_counterexample_empty_diff_still_yields_detail :
    prepareIssueFromPushEventSDL false [(("DB_NAME".data), ("orders".data))]
        (.ok ("content".data)) [c8Db] (fun _ _ => .ok []) ("v1".data) ("f.sql".data) =
      (some ⟨("v1".data), ("orders".data), ("orders".data), [], ("VCS".data), ("MIGRATE".data),
          ("Apply schema diff".data)⟩,
        [{ databaseID := 11, statement := [] }], []) := by
  rfl

theorem sdl_fold_spec (computeDiff : ProjDatabase → GoStr → Except GoStr GoStr)
    (content file : GoStr) (databases : List ProjDatabase)
    (accD : List MigrationDetail) (accA : List ActivityCreate) :
    databases.foldl (fun (acc : List MigrationDetail × List ActivityCreate) database =>
        match computeDiff database content with
        | .error e =>
          (acc.1, acc.2 ++ [getIgnoredFileActivityCreate file
            (("Failed to compute database schema diff: ".data) ++ e)])
        | .ok diff =>
          (acc.1 ++ [{ databaseID := database.id, statement := diff }], acc.2)) (accD, accA) =
      (accD ++ databases.filterMap (fun db =>
          match computeDiff db content with
          | .ok diff => some { databaseID := db.id, statement := diff }
          | .error _ => none),
        accA ++ databases.filterMap (fun db =>
          match computeDiff db content with
          | .ok _ => none
          | .error e =>
            some (getIgnoredFileActivityCreate file
              (("Failed to compute database schema diff: ".data) ++ e)))) := by
  induction databases generalizing accD accA with
  | nil => simp
  | cons db rest ih =>
    rw [List.foldl_cons, List.filterMap_cons, List.filterMap_cons]
    cases hdb : computeDiff db content with
    | error e =>
      simp only [hdb]
      rw [ih]
      simp
    | ok diff =>
      simp only [hdb]
      rw [ih]
      simp

/-- C8 (amended): in the non-tenant SDL branch, once content is read and
databases resolve, each database whose diff computation succeeds yields
exactly one `MigrationDetail` whose statement is that diff — including the
empty diff — and each failed diff yields an ignored-file activity instead;
no empty-diff filtering exists. -/
theorem c8_sdl_detail_per_successful_diff
    (schemaInfo : List (GoStr × GoStr)) (content : GoStr)
    (foundDatabases : List ProjDatabase)
    (computeDiff : ProjDatabase → GoStr → Except GoStr GoStr)
    (defaultVersion file : GoStr) (databases : List ProjDatabase)
    (hname : mapGet schemaInfo ("DB_NAME".data) ≠ [])
    (hfind : findProjectDatabases false (mapGet schemaInfo ("ENV_NAME".data)) foundDatabases =
      .ok databases) :
    (prepareIssueFromPushEventSDL false schemaInfo (.ok content) foundDatabases computeDiff
        defaultVersion file).2.1 =
      databases.filterMap (fun db =>
        match computeDiff db content with
        | .ok diff => some { databaseID := db.id, statement := diff }
        | .error _ => none) ∧
    (prepareIssueFromPushEventSDL false schemaInfo (.ok content) foundDatabases computeDiff
        defaultVersion file).2.2 =
      databases.filterMap (fun db =>
        match computeDiff db content with
        | .ok _ => none
        | .error e =>
          some (getIgnoredFileActivityCreate file
            (("Failed to compute database schema diff: ".data) ++ e))) := by
  simp only [prepareIssueFromPushEventSDL, if_neg hname, hfind, Bool.false_eq_true, if_false,
    sdl_fold_spec, List.nil_append]
  exact ⟨trivial, trivial⟩

/-- Witness for C8 (amended): the concrete empty-diff database yields exactly
one detail with empty statement and no activity. -/
theorem c8_sdl_detail_per_successful_diff_witness :
    (prepareIssueFromPushEventSDL false [(("DB_NAME".data), ("orders".data))]
        (.ok ("content".data)) [c8Db] (fun _ _ => .ok []) ("v1".data) ("f.sql".data)).2.1 =
      [{ databaseID := 11, statement := [] }] ∧
    (prepareIssueFromPushEventSDL false [(("DB_NAME".data), ("orders".data))]
        (.ok ("content".data)) [c8Db] (fun _ _ => .ok []) ("v1".data) ("f.sql".data)).2.2 = [] := by
  have h := c8_sdl_detail_per_successful_diff [(("DB_NAME".data), ("orders".data))]
      ("content".data) [c8Db] (fun _ _ => .ok []) ("v1".data) ("f.sql".data) [c8Db]
      (by decide) rfl
  simpa using h

/-- C6 counterexample: with two resolved databases — the first having exactly
one matching pending task (id 10, successfully patched), the second having
two matching tasks — the modified-file update is aborted by the
multiple-match condition, yet task 10 has already been patched; so "the
update is aborted without patching any task" is false as a statement about
the whole update. The detail list is empty and no request-level error is
produced. -/
theorem c6_counterexample_abort_keeps_earlier_patch :
    prepareIssueFromPushEventDDL false (.ok ("stmt".data))
        [⟨1, 7, ("dev".data)⟩, ⟨2, 8, ("prod".data)⟩]
        c6FindTask c6GetIssue c6PatchTask ("f.sql".data) .modified
        ("db".data) [] ("v1".data) =
      ⟨[], [], [10]⟩ := by
  rfl


theorem modifiedFileLoop_cons_find_err (findTask : Nat → Except GoStr (List TaskRec))
    (getIssue : Nat → Except GoStr Nat) (patchTask : Nat → Except GoStr Unit)
    (file : GoStr) (db : Nat) (rest : List Nat) (patched : List Nat) (e : GoStr)
    (hf : findTask db = .error e) :
    modifiedFileLoop findTask getIssue patchTask file (db :: rest) patched =
      ⟨[], [getIgnoredFileActivityCreate file (("Failed to find project task: ".data) ++ e)],
        patched⟩ := by
  simp only [modifiedFileLoop, hf]

theorem modifiedFileLoop_cons_zero (findTask : Nat → Except GoStr (List TaskRec))
    (getIssue : Nat → Except GoStr Nat) (patchTask : Nat → Except GoStr Unit)
    (file : GoStr) (db : Nat) (rest : List Nat) (patched : List Nat)
    (hf : findTask db = .ok []) :
    modifiedFileLoop findTask getIssue patchTask file (db :: rest) patched =
      modifiedFileLoop findTask getIssue patchTask file rest patched := by
  simp only [modifiedFileLoop, hf]

theorem modifiedFileLoop_cons_issue_err (findTask : Nat → Except GoStr (List TaskRec))
    (getIssue : Nat → Except GoStr Nat) (patchTask : Nat → Except GoStr Unit)
    (file : GoStr) (db : Nat) (rest : List Nat) (patched : List Nat) (t : TaskRec) (e : GoStr)
    (hf : findTask db = .ok [t]) (hg : getIssue t.pipelineID = .error e) :
    modifiedFileLoop findTask getIssue patchTask file (db :: rest) patched =
      ⟨[], [], patched⟩ := by
  simp only [modifiedFileLoop, hf, hg]

theorem modifiedFileLoop_cons_patch_err (findTask : Nat → Except GoStr (List TaskRec))
    (getIssue : Nat → Except GoStr Nat) (patchTask : Nat → Except GoStr Unit)
    (file : GoStr) (db : Nat) (rest : List Nat) (patched : List Nat) (t : TaskRec)
    (i : Nat) (e : GoStr)
    (hf : findTask db = .ok [t]) (hg : getIssue t.pipelineID = .ok i)
    (hp : patchTask t.id = .error e) :
    modifiedFileLoop findTask getIssue patchTask file (db :: rest) patched =
      ⟨[], [], patched⟩ := by
  simp only [modifiedFileLoop, hf, hg, hp]

theorem modifiedFileLoop_cons_one (findTask : Nat → Except GoStr (List TaskRec))
    (getIssue : Nat → Except GoStr Nat) (patchTask : Nat → Except GoStr Unit)
    (file : GoStr) (db : Nat) (rest : List Nat) (patched : List Nat) (t : TaskRec) (i : Nat)
    (hf : findTask db = .ok [t]) (hg : getIssue t.pipelineID = .ok i)
    (hp : patchTask t.id = .ok ()) :
    modifiedFileLoop findTask getIssue patchTask file (db :: rest) patched =
      modifiedFileLoop findTask getIssue patchTask file rest (patched ++ [t.id]) := by
  simp only [modifiedFileLoop, hf, hg, hp]

theorem modifiedFileLoop_cons_many (findTask : Nat → Except GoStr (List TaskRec))
    (getIssue : Nat → Except GoStr Nat) (patchTask : Nat → Except GoStr Unit)
    (file : GoStr) (db : Nat) (rest : List Nat) (patched : List Nat)
    (t1 t2 : TaskRec) (ts : List TaskRec)
    (hf : findTask db = .ok (t1 :: t2 :: ts)) :
    modifiedFileLoop findTask getIssue patchTask file (db :: rest) patched =
      ⟨[], [], patched⟩ := by
  simp only [modifiedFileLoop, hf]

theorem modifiedFileLoop_patched_sound (findTask : Nat → Except GoStr (List TaskRec))
    (getIssue : Nat → Except GoStr Nat) (patchTask : Nat → Except GoStr Unit)
    (file : GoStr) :
    ∀ (dbs : List Nat) (patched : List Nat) (tid : Nat),
      tid ∈ (modifiedFileLoop findTask getIssue patchTask file dbs patched).patchedTaskIDs →
      tid ∈ patched ∨ ∃ db ∈ dbs, ∃ t : TaskRec,
        findTask db = .ok [t] ∧ t.id = tid ∧ patchTask t.id = .ok () := by
  intro dbs
  induction dbs with
  | nil => intro patched tid h; exact Or.inl (by simpa [modifiedFileLoop] using h)
  | cons db rest ih =>
    intro patched tid h
    cases hf : findTask db with
    | error e =>
      rw [modifiedFileLoop_cons_find_err findTask getIssue patchTask file db rest patched e hf]
        at h
      exact Or.inl h
    | ok l =>
      match l, hf with
      | [], hf =>
        rw [modifiedFileLoop_cons_zero findTask getIssue patchTask file db rest patched hf] at h
        rcases ih patched tid h with h1 | ⟨d, hd, t, ht⟩
        · exact Or.inl h1
        · exact Or.inr ⟨d, List.mem_cons_of_mem _ hd, t, ht⟩
      | [t], hf =>
        cases hg : getIssue t.pipelineID with
        | error e =>
          rw [modifiedFileLoop_cons_issue_err findTask getIssue patchTask file db rest patched
            t e hf hg] at h
          exact Or.inl h
        | ok i =>
          cases hp : patchTask t.id with
          | error e =>
            rw [modifiedFileLoop_cons_patch_err findTask getIssue patchTask file db rest patched
              t i e hf hg hp] at h
            exact Or.inl h
          | ok u =>
            cases u
            rw [modifiedFileLoop_cons_one findTask getIssue patchTask file db rest patched
              t i hf hg hp] at h
            rcases ih (patched ++ [t.id]) tid h with h1 | ⟨d, hd, t2, ht2⟩
            · rcases List.mem_append.mp h1 with h2 | h2
              · exact Or.inl h2
              · have htid : tid = t.id := by simpa using h2
                exact Or.inr ⟨db, List.mem_cons_self _ _, t, hf, htid.symm, hp⟩
            · exact Or.inr ⟨d, List.mem_cons_of_mem _ hd, t2, ht2⟩
      | t1 :: t2 :: ts, hf =>
        rw [modifiedFileLoop_cons_many findTask getIssue patchTask file db rest patched
          t1 t2 ts hf] at h
        exact Or.inl h

/-- C6 (amended): the modified-file reconciliation never returns migration
details (so never creates a new issue); a database with zero matching tasks
is skipped with no action; a database with exactly one matching task has
that task patched (its id appended to the successful-patch trail) and
processing continues with the remaining databases; a database with more
than one matching task aborts the remaining processing with no further
mutation and no request-level error — but patches already applied for
earlier databases of the same update remain; and every patched task id
stems from a database whose task query returned exactly that one task and
whose patch succeeded. -/
theorem c6_amended_modified_file_reconciliation
    (findTask : Nat → Except GoStr (List TaskRec))
    (getIssue : Nat → Except GoStr Nat)
    (patchTask : Nat → Except GoStr Unit)
    (file : GoStr) :
    (∀ dbs patched,
      (modifiedFileLoop findTask getIssue patchTask file dbs patched).detailList = []) ∧
    (∀ db rest patched, findTask db = .ok [] →
      modifiedFileLoop findTask getIssue patchTask file (db :: rest) patched =
        modifiedFileLoop findTask getIssue patchTask file rest patched) ∧
    (∀ db rest patched (t : TaskRec) (i : Nat), findTask db = .ok [t] →
      getIssue t.pipelineID = .ok i → patchTask t.id = .ok () →
      modifiedFileLoop findTask getIssue patchTask file (db :: rest) patched =
        modifiedFileLoop findTask getIssue patchTask file rest (patched ++ [t.id])) ∧
    (∀ db rest patched (t1 t2 : TaskRec) (ts : List TaskRec),
      findTask db = .ok (t1 :: t2 :: ts) →
      modifiedFileLoop findTask getIssue patchTask file (db :: rest) patched =
        ⟨[], [], patched⟩) ∧
    (∀ dbs tid,
      tid ∈ (modifiedFileLoop findTask getIssue patchTask file dbs []).patchedTaskIDs →
      ∃ db ∈ dbs, ∃ t : TaskRec,
        findTask db = .ok [t] ∧ t.id = tid ∧ patchTask t.id = .ok ()) := by
  refine ⟨?_, ?_, ?_, ?_, ?_⟩
  · intro dbs
    induction dbs with
    | nil => intro patched; rfl
    | cons db rest ih =>
      intro patched
      cases hf : findTask db with
      | error e =>
        rw [modifiedFileLoop_cons_find_err findTask getIssue patchTask file db rest patched e hf]
      | ok l =>
        match l, hf with
        | [], hf =>
          rw [modifiedFileLoop_cons_zero findTask getIssue patchTask file db rest patched hf]
          exact ih patched
        | [t], hf =>
          cases hg : getIssue t.pipelineID with
          | error e =>
            rw [modifiedFileLoop_cons_issue_err findTask getIssue patchTask file db rest patched
              t e hf hg]
          | ok i =>
            cases hp : patchTask t.id with
            | error e =>
              rw [modifiedFileLoop_cons_patch_err findTask getIssue patchTask file db rest
                patched t i e hf hg hp]
            | ok u =>
              cases u
              rw [modifiedFileLoop_cons_one findTask getIssue patchTask file db rest patched
                t i hf hg hp]
              exact ih (patched ++ [t.id])
        | t1 :: t2 :: ts, hf =>
          rw [modifiedFileLoop_cons_many findTask getIssue patchTask file db rest patched
            t1 t2 ts hf]
  · exact fun db rest patched hf =>
      modifiedFileLoop_cons_zero findTask getIssue patchTask file db rest patched hf
  · exact fun db rest patched t i hf hg hp =>
      modifiedFileLoop_cons_one findTask getIssue patchTask file db rest patched t i hf hg hp
  · exact fun db rest patched t1 t2 ts hf =>
      modifiedFileLoop_cons_many findTask getIssue patchTask file db rest patched t1 t2 ts hf
  · intro dbs tid h
    rcases modifiedFileLoop_patched_sound findTask getIssue patchTask file dbs [] tid h with
      h1 | h2
    · exact absurd h1 (List.not_mem_nil tid)
    · exact h2

/-- Witness for C6 (amended): the exactly-one-match rule instantiated at the
concrete oracles — database 1's sole matching task 10 is patched and the
loop continues with the patch recorded. -/
theorem c6_amended_modified_file_reconciliation_witness :
    modifiedFileLoop c6FindTask c6GetIssue c6PatchTask ("f.sql".data) [1] [] =
      modifiedFileLoop c6FindTask c6GetIssue c6PatchTask ("f.sql".data) [] [10] := by
  have h := (c6_amended_modified_file_reconciliation c6FindTask c6GetIssue c6PatchTask
      ("f.sql".data)).2.2.1 1 [] [] ⟨10, 100⟩ 500 rfl rfl rfl
  simpa using h

theorem hasPfx_iff (s p : GoStr) : hasPfx s p = true ↔ ∃ t, s = p ++ t := by
  induction p generalizing s with
  | nil =>
    cases s with
    | nil => simp [hasPfx]
    | cons c s => simp [hasPfx]
  | cons d p ih =>
    cases s with
    | nil => simp [hasPfx]
    | cons c s =>
      simp only [hasPfx, Bool.and_eq_true, beq_iff_eq, ih, List.cons_append]
      constructor
      · rintro ⟨rfl, t, rfl⟩
        exact ⟨t, rfl⟩
      · rintro ⟨t, ht⟩
        injection ht with h1 h2
        exact ⟨h1, t, h2⟩

/-- C10: the base-directory scope check of `createIssueFromPushEvent` is a
plain string-prefix test, not a path-component test: a file path passes
exactly when it extends the base directory as a raw character sequence, so
with base directory `migrations` the sibling-directory path
`migrationsX/v1.sql` passes the check, while `migration/v1.sql` fails it and
only such prefix-failing paths are ignored as out of scope. -/
theorem c10_scope_check_is_plain_string_prefix :
    (∀ baseDirectory file : GoStr,
      fileInRepoBaseDirectory baseDirectory file = true ↔
        ∃ t, file = baseDirectory ++ t) ∧
    fileInRepoBaseDirectory ("migrations".data) ("migrationsX/v1.sql".data) = true ∧
    fileInRepoBaseDirectory ("migrations".data) ("migration/v1.sql".data) = false := by
  exact ⟨fun b f => hasPfx_iff f b, by decide, by decide⟩

/-- C1 (bug demonstration): a GitHub push to branch `main` with a single
binding whose branch filter is `dev`. The validation filter excludes the
binding (`handleRepos` is empty), yet the per-file loop — ranging over the
unfiltered `repos` at webhook.go:255 — still invokes
`createIssueFromPushEvent` for it, so a binding that failed a validation
check is NOT excluded from further processing in the GitHub handler. -/
theorem c1_github_handler_processes_unvalidated_binding :
    githubHandleRepos [c1Repo] ("main".data) ("sig".data) [] ("org/repo".data) = [] ∧
    (githubProcessPush c1Oracle [c1Repo] [c1Commit]).1 = [(1, ("m.sql".data))] := by
  exact ⟨rfl, rfl⟩

theorem gitlabRepoLoop_calls (oracle : Nat × GoStr → IssueOutcome) (file : GoStr) :
    ∀ repos : List Repo,
      (gitlabRepoLoop oracle file repos).1 = repos.map (fun r => (r.id, file)) := by
  intro repos
  induction repos with
  | nil => rfl
  | cons repo rest ih => simp only [gitlabRepoLoop, List.map_cons, ih]

theorem gitlabFileLoop_calls (oracle : Nat × GoStr → IssueOutcome) (handleRepos : List Repo) :
    ∀ items : List DistinctFileItem,
      (gitlabFileLoop oracle handleRepos items).1 =
        items.flatMap (fun item => handleRepos.map (fun r => (r.id, item.fileName))) := by
  intro items
  induction items with
  | nil => rfl
  | cons item rest ih =>
    simp only [gitlabFileLoop, List.flatMap_cons, gitlabRepoLoop_calls, ih]

theorem takeUntilErr_none_calls (oracle : Nat × GoStr → IssueOutcome) :
    ∀ xs, (takeUntilErr oracle xs).2 = none → (takeUntilErr oracle xs).1 = xs := by
  intro xs
  induction xs with
  | nil => intro _; rfl
  | cons p ps ih =>
    intro h
    cases ho : (oracle p).httpErr with
    | some e => simp [takeUntilErr, ho] at h
    | none =>
      have h2 : (takeUntilErr oracle ps).2 = none := by
        simpa [takeUntilErr, ho] using h
      simp only [takeUntilErr, ho, ih h2]

theorem takeUntilErr_append_none (oracle : Nat × GoStr → IssueOutcome)
    (xs ys : List (Nat × GoStr)) (h : (takeUntilErr oracle xs).2 = none) :
    takeUntilErr oracle (xs ++ ys) =
      (xs ++ (takeUntilErr oracle ys).1, (takeUntilErr oracle ys).2) := by
  induction xs with
  | nil => simp [takeUntilErr]
  | cons p ps ih =>
    cases ho : (oracle p).httpErr with
    | some e => simp [takeUntilErr, ho] at h
    | none =>
      have h2 : (takeUntilErr oracle ps).2 = none := by
        simpa [takeUntilErr, ho] using h
      simp only [List.cons_append, List.append_eq, takeUntilErr, ho, ih h2]

theorem takeUntilErr_append_some (oracle : Nat × GoStr → IssueOutcome)
    (xs ys : List (Nat × GoStr)) (e : Nat)
    (h : (takeUntilErr oracle xs).2 = some e) :
    takeUntilErr oracle (xs ++ ys) = takeUntilErr oracle xs := by
  induction xs with
  | nil => simp [takeUntilErr] at h
  | cons p ps ih =>
    cases ho : (oracle p).httpErr with
    | some e2 => simp [takeUntilErr, ho]
    | none =>
      have h2 : (takeUntilErr oracle ps).2 = some e := by
        simpa [takeUntilErr, ho] using h
      simp only [List.cons_append, List.append_eq, takeUntilErr, ho, ih h2]

theorem githubRepoLoop_spec (oracle : Nat × GoStr → IssueOutcome) (file : GoStr) :
    ∀ repos : List Repo,
      (githubRepoLoop oracle file repos).1 =
        (takeUntilErr oracle (repos.map (fun r => (r.id, file)))).1 ∧
      (githubRepoLoop oracle file repos).2.2 =
        (takeUntilErr oracle (repos.map (fun r => (r.id, file)))).2 := by
  intro repos
  induction repos with
  | nil => exact ⟨rfl, rfl⟩
  | cons repo rest ih =>
    cases ho : (oracle (repo.id, file)).httpErr with
    | some e => simp [githubRepoLoop, takeUntilErr, ho]
    | none =>
      simp only [githubRepoLoop, takeUntilErr, List.map_cons, ho]
      exact ⟨by rw [ih.1], by rw [ih.2]⟩

theorem githubFileLoop_spec (oracle : Nat × GoStr → IssueOutcome) (repos : List Repo) :
    ∀ files : List GoStr,
      (githubFileLoop oracle repos files).1 =
        (takeUntilErr oracle
          (files.flatMap (fun f => repos.map (fun r => (r.id, f))))).1 ∧
      (githubFileLoop oracle repos files).2.2 =
        (takeUntilErr oracle
          (files.flatMap (fun f => repos.map (fun r => (r.id, f))))).2 := by
  intro files
  induction files with
  | nil => exact ⟨rfl, rfl⟩
  | cons f fs ih =>
    have hr := githubRepoLoop_spec oracle f repos
    simp only [githubFileLoop, List.flatMap_cons]
    cases he : (githubRepoLoop oracle f repos).2.2 with
    | some e =>
      have h2 : (takeUntilErr oracle (repos.map (fun r => (r.id, f)))).2 = some e := by
        rw [← hr.2]; exact he
      rw [takeUntilErr_append_some oracle _ _ e h2]
      simp only [he]
      exact ⟨hr.1, by rw [h2]⟩
    | none =>
      have h2 : (takeUntilErr oracle (repos.map (fun r => (r.id, f)))).2 = none := by
        rw [← hr.2]; exact he
      rw [takeUntilErr_append_none oracle _ _ h2]
      simp only [he]
      refine ⟨?_, ih.2⟩
      rw [hr.1, takeUntilErr_none_calls oracle _ h2, ih.1]

theorem githubAllPairs_cons_skip (repos : List Repo) (c : GHCommit) (rest : List GHCommit)
    (hd : c.distinct = false) :
    githubAllPairs repos (c :: rest) = githubAllPairs repos rest := by
  simp [githubAllPairs, List.filter_cons, hd]

theorem githubAllPairs_cons_distinct (repos : List Repo) (c : GHCommit)
    (rest : List GHCommit) (hd : c.distinct = true) :
    githubAllPairs repos (c :: rest) =
      (githubCommitFiles c).flatMap (fun f => repos.map (fun r => (r.id, f))) ++
        githubAllPairs repos rest := by
  simp [githubAllPairs, List.filter_cons, hd]

theorem githubCommitLoop_cons_skip (oracle : Nat × GoStr → IssueOutcome)
    (repos : List Repo) (c : GHCommit) (rest : List GHCommit) (hd : c.distinct = false) :
    githubCommitLoop oracle repos (c :: rest) = githubCommitLoop oracle repos rest := by
  simp [githubCommitLoop, hd]

theorem githubCommitLoop_spec (oracle : Nat × GoStr → IssueOutcome) (repos : List Repo) :
    ∀ commits : List GHCommit,
      (githubCommitLoop oracle repos commits).1 =
        (takeUntilErr oracle (githubAllPairs repos commits)).1 ∧
      (githubCommitLoop oracle repos commits).2.2 =
        (takeUntilErr oracle (githubAllPairs repos commits)).2 := by
  intro commits
  induction commits with
  | nil => exact ⟨rfl, rfl⟩
  | cons c rest ih =>
    cases hd : c.distinct with
    | false =>
      rw [githubCommitLoop_cons_skip oracle repos c rest hd,
        githubAllPairs_cons_skip repos c rest hd]
      exact ih
    | true =>
      have hf := githubFileLoop_spec oracle repos (githubCommitFiles c)
      rw [githubAllPairs_cons_distinct repos c rest hd]
      simp only [githubCommitLoop, hd, Bool.not_true, Bool.false_eq_true, if_false]
      cases he : (githubFileLoop oracle repos (githubCommitFiles c)).2.2 with
      | some e =>
        have h2 : (takeUntilErr oracle
            ((githubCommitFiles c).flatMap (fun f => repos.map (fun r => (r.id, f))))).2 =
              some e := by
          rw [← hf.2]; exact he
        rw [takeUntilErr_append_some oracle _ _ e h2]
        simp only [he]
        exact ⟨hf.1, by rw [h2]⟩
      | none =>
        have h2 : (takeUntilErr oracle
            ((githubCommitFiles c).flatMap (fun f => repos.map (fun r => (r.id, f))))).2 =
              none := by
          rw [← hf.2]; exact he
        rw [takeUntilErr_append_none oracle _ _ h2]
        simp only [he]
        refine ⟨?_, ih.2⟩
        rw [hf.1, takeUntilErr_none_calls oracle _ h2, ih.1]

/-- C5 counterexample: a GitHub push whose commit adds `a.sql` then `b.sql`;
`createIssueFromPushEvent` fails (HTTP 500) on `a.sql`. The handler aborts
the whole request at the first error (webhook.go:283-285): `b.sql` is never
attempted and the request ends with the error — refuting "the handler
continues processing the remaining files and repository bindings". -/
theorem c5_counterexample_github_aborts_on_per_file_error :
    githubProcessPush c5Oracle [c5Repo] [c5Commit] =
      ([(1, ("a.sql".data))], [], some 500) := by
  rfl

/-- C5 (amended): a per-(repository, file) error from
`createIssueFromPushEvent` is handled differently by the two handlers. The
GitLab handler skips just that binding: its attempted calls are always the
full (deduplicated file × validated binding) product, whatever the oracle's
errors, and the request is never aborted below the structural checks. The
GitHub handler aborts the entire request at the first error: its attempted
calls are exactly the all-pairs sequence truncated at (and including) the
first erroring pair, and the request error is that pair's error. -/
theorem c5_amended_per_file_error_scoping
    (parseTs : GoStr → Option Int) (oracle : Nat × GoStr → IssueOutcome)
    (repos : List Repo) (branch headerToken : GoStr) (projectID : Nat)
    (commitList : List WebhookCommit)
    (oracle2 : Nat × GoStr → IssueOutcome) (repos2 : List Repo)
    (ghCommits : List GHCommit) :
    (gitlabProcessPush parseTs oracle repos branch headerToken projectID commitList).1 =
      (dedupMigrationFilesFromCommitList parseTs commitList).flatMap
        (fun item => (gitlabHandleRepos repos branch headerToken projectID).map
          (fun r => (r.id, item.fileName))) ∧
    (githubProcessPush oracle2 repos2 ghCommits).1 =
      (takeUntilErr oracle2 (githubAllPairs repos2 ghCommits)).1 ∧
    (githubProcessPush oracle2 repos2 ghCommits).2.2 =
      (takeUntilErr oracle2 (githubAllPairs repos2 ghCommits)).2 := by
  refine ⟨?_, ?_, ?_⟩
  · exact gitlabFileLoop_calls oracle _ _
  · exact (githubCommitLoop_spec oracle2 repos2 ghCommits).1
  · exact (githubCommitLoop_spec oracle2 repos2 ghCommits).2

theorem findSub_isSome_iff (ps : List RItem) :
    ∀ s : GoStr, (findSub ps s).isSome = true ↔
      ∃ n, (matchSeq (ps.length + 1) ps (s.drop n)).isSome = true := by
  intro s
  induction s with
  | nil =>
    cases hm : matchSeq (ps.length + 1) ps [] with
    | some r =>
      simp only [findSub, hm]
      exact ⟨fun _ => ⟨0, by simp [hm]⟩, fun _ => rfl⟩
    | none =>
      simp only [findSub, hm]
      constructor
      · intro h; simp at h
      · rintro ⟨n, hn⟩
        rw [List.drop_nil, hm] at hn
        simp at hn
  | cons c rest ih =>
    cases hm : matchSeq (ps.length + 1) ps (c :: rest) with
    | some r =>
      simp only [findSub, hm]
      constructor
      · intro _
        exact ⟨0, by simp [hm]⟩
      · intro _; rfl
    | none =>
      simp only [findSub, hm]
      rw [ih]
      constructor
      · rintro ⟨n, hn⟩
        exact ⟨n + 1, by simpa using hn⟩
      · rintro ⟨n, hn⟩
        match n, hn with
        | 0, hn =>
          rw [List.drop_zero, hm] at hn
          simp at hn
        | n + 1, hn => exact ⟨n, by simpa using hn⟩

/-- C9 counterexample: a candidate path that merely contains the joined
pattern as a proper substring (here with a spurious leading `X`) still
matches and yields the extracted mapping — `FindStringSubmatch` performs an
unanchored leftmost search, refuting "anchored at both ends, so a candidate
path that merely contains the pattern as a proper substring does not
match". -/
theorem c9_counterexample_unanchored_substring_match :
    parseSchemaFileInfo ("migrations".data) c9Template
        ("Xmigrations/prod/orders/schema.sql".data) =
      .ok (some [(("ENV_NAME".data), ("prod".data)),
        (("DB_NAME".data), ("orders".data))]) := by
  rfl

/-- C9 (amended): `parseSchemaFileInfo` joins the base directory and the
placeholder-substituted template with a forward slash unconditionally; an
empty schema path template always returns no match and no error; the
`migrations` base with the `ENV_NAME/DB_NAME/schema.sql` template matches
`migrations/prod/orders/schema.sql` extracting `ENV_NAME = prod`,
`DB_NAME = orders`, and a path missing the trailing `schema.sql` segment
does not match; but matching is an unanchored leftmost search: a candidate
matches exactly when the pattern matches at some start position, so a
candidate containing the pattern as a proper substring also matches. -/
theorem c9_amended_schema_path_classification :
    (∀ baseDirectory file : GoStr,
      parseSchemaFileInfo baseDirectory [] file = .ok none) ∧
    pathJoin ("migrations".data) c9SubstitutedRegex =
      ("migrations/".data) ++ c9SubstitutedRegex ∧
    parseSchemaFileInfo ("migrations".data) c9Template
        ("migrations/prod/orders/schema.sql".data) =
      .ok (some [(("ENV_NAME".data), ("prod".data)),
        (("DB_NAME".data), ("orders".data))]) ∧
    parseSchemaFileInfo ("migrations".data) c9Template
        ("migrations/prod/orders".data) = .ok none ∧
    (∀ (ps : List RItem) (s : GoStr),
      (findSub ps s).isSome = true ↔
        ∃ n, (matchSeq (ps.length + 1) ps (s.drop n)).isSome = true) := by
  exact ⟨fun b f => rfl, rfl, rfl, rfl, findSub_isSome_iff⟩
